import Mathlib

set_option maxRecDepth 8192

/-! Verification of the response parsing, section splitting, lint and guard
logic of the ATS Resume Tailor application (src/app.py). Python strings are
modelled as lists of characters; the regex searches of the parser are embedded
as explicit leftmost scan functions with the same semantics on the concrete
patterns used by the code. -/

/-- Whitespace as stripped by Python str.strip: the ASCII whitespace
characters together with the common Unicode space code points. -/
def isPySpace (c : Char) : Bool :=
  [9, 10, 11, 12, 13, 28, 29, 30, 31, 32, 133, 160, 5760, 8192, 8193, 8194,
    8195, 8196, 8197, 8198, 8199, 8200, 8201, 8202, 8232, 8233, 8239, 8287,
    12288].contains c.toNat

/-- Python str.strip: drop leading and trailing whitespace. -/
def strip (s : List Char) : List Char :=
  ((s.dropWhile isPySpace).reverse.dropWhile isPySpace).reverse

/-- Case folding key: re.IGNORECASE on the ASCII letters of the tag patterns
of src/app.py compares letters after lowercasing. -/
def lcStr (s : List Char) : List Char := s.map Char.toLower

/-- pat is a case-insensitive prefix of s. -/
def isPrefixCI : List Char → List Char → Bool
  | [], _ => true
  | _ :: _, [] => false
  | p :: ps, c :: cs => (p.toLower == c.toLower) && isPrefixCI ps cs

/-- Leftmost case-insensitive occurrence of pat in s: the text strictly before
the occurrence together with the text strictly after it. This mirrors how
re.search scans starting positions from the left. -/
def splitFirstCI (pat : List Char) : List Char → Option (List Char × List Char)
  | [] => if isPrefixCI pat [] then some ([], []) else none
  | c :: cs =>
    if isPrefixCI pat (c :: cs) then some ([], (c :: cs).drop pat.length)
    else
      match splitFirstCI pat cs with
      | none => none
      | some (b, a) => some (c :: b, a)

def resumeOpenTag : List Char := "<RESUME>".toList

def resumeCloseTag : List Char := "</RESUME>".toList

def reportOpenTag : List Char := "<MATCH_REPORT>".toList

def reportCloseTag : List Char := "</MATCH_REPORT>".toList

/-- Embedding of re.search on the pattern open tag, lazy dotall capture, close
tag, with IGNORECASE (src/app.py lines 158-159). The leftmost opening tag
occurrence is located; the first closing tag occurrence at or after its end
bounds the capture. When the first opening tag has no closing tag after it, no
later starting position can succeed either, so the whole search fails; hence
this scan computes exactly the regex search result. -/
def searchTagged (op cl s : List Char) : Option (List Char) :=
  match splitFirstCI op s with
  | none => none
  | some (_, rest) =>
    match splitFirstCI cl rest with
    | none => none
    | some (cap, _) => some cap

structure ParsedOutput where
  resume_block : List Char
  report_block : List Char

/-- src/app.py lines 156-165: the resume block is the stripped RESUME capture;
when that is empty (no match, or a capture that strips to empty) the whole
response, stripped, is used instead. -/
def resume_block_of (content : List Char) : List Char :=
  match searchTagged resumeOpenTag resumeCloseTag content with
  | some g => if strip g = [] then strip content else strip g
  | none => strip content

/-- src/app.py lines 157-163: the report block is the stripped MATCH_REPORT
capture, empty when the pattern does not match. -/
def report_block_of (content : List Char) : List Char :=
  match searchTagged reportOpenTag reportCloseTag content with
  | some g => strip g
  | none => []

/-- src/app.py lines 156-165: the response parser. -/
def parse_response (content : List Char) : ParsedOutput :=
  { resume_block := resume_block_of content, report_block := report_block_of content }

def emDash : List Char := "—".toList

/-- src/app.py line 177: the match report is rendered as is, with an em dash
placeholder when it is empty. -/
def render_report (report_block : List Char) : List Char :=
  if report_block = [] then emDash else report_block

/-- The tagged pattern matches somewhere in s: some case-insensitive opening
tag occurrence is followed, at or after its end, by a case-insensitive closing
tag occurrence. -/
def tagMatchesB (op cl s : List Char) : Bool :=
  (List.range (s.length + 1)).any fun i =>
    isPrefixCI op (s.drop i) &&
      (List.range (s.length + 1)).any fun k =>
        decide (i + op.length ≤ k) && isPrefixCI cl (s.drop k)

/-- Line boundary characters of Python str.splitlines. -/
def isLineBreakChar (c : Char) : Bool :=
  [10, 11, 12, 13, 28, 29, 30, 133, 8232, 8233].contains c.toNat

/-- Python str.splitlines worker: CR LF counts as a single boundary, and a
trailing boundary yields no final empty line. -/
def splitlinesGo : List Char → List Char → List (List Char)
  | [], acc => [acc.reverse]
  | '\r' :: '\n' :: rest, acc =>
    acc.reverse :: (if rest = [] then [] else splitlinesGo rest [])
  | c :: rest, acc =>
    if isLineBreakChar c then
      acc.reverse :: (if rest = [] then [] else splitlinesGo rest [])
    else splitlinesGo rest (c :: acc)

/-- Python str.splitlines. -/
def splitlines : List Char → List (List Char)
  | [] => []
  | s => splitlinesGo s []

/-- Decimal digit character, as produced by Python str on a digit value. -/
def digitChar (k : Nat) : Char :=
  if k = 0 then '0' else if k = 1 then '1' else if k = 2 then '2'
  else if k = 3 then '3' else if k = 4 then '4' else if k = 5 then '5'
  else if k = 6 then '6' else if k = 7 then '7' else if k = 8 then '8' else '9'

def natDigitsAux : Nat → Nat → List Char
  | 0, _ => []
  | fuel + 1, n =>
    if n < 10 then [digitChar n]
    else natDigitsAux fuel (n / 10) ++ [digitChar (n % 10)]

/-- Decimal rendering of a natural number, as Python str renders the line
count interpolated into the lint warning. -/
def natDigits (n : Nat) : List Char := natDigitsAux (n + 1) n

/-- src/app.py line 54: the long line warning, count included. -/
def longLineWarn (n : Nat) : List Char :=
  natDigits n ++ " lines exceed ~160 chars; consider concise bullets.".toList

/-- src/app.py line 56. -/
def nonAsciiWarn : List Char :=
  "Non-ASCII characters found; stick to plain text where possible.".toList

/-- src/app.py line 58. -/
def missingHeadWarn : List Char :=
  "Missing standard headings like Skills, Experience, Education.".toList

/-- src/app.py line 52: the number of lines longer than 160 characters. -/
def countLongLines (text : List Char) : Nat :=
  ((splitlines text).filter fun ln => 160 < ln.length).length

/-- src/app.py line 55: some character outside the seven bit range. -/
def hasNonAscii (text : List Char) : Bool :=
  text.any fun c => decide (127 < c.toNat)

/-- src/app.py line 57: case-insensitive search for skills, experience or
education anywhere in the text. -/
def hasStdHeadingB (text : List Char) : Bool :=
  (splitFirstCI ("skills".toList) text).isSome ||
    (splitFirstCI ("experience".toList) text).isSome ||
      (splitFirstCI ("education".toList) text).isSome

/-- src/app.py lines 48-59: the lint warnings, in the fixed check order of the
code. -/
def ats_lint (text : List Char) : List (List Char) :=
  (if 0 < countLongLines text then [longLineWarn (countLongLines text)] else []) ++
    (if hasNonAscii text then [nonAsciiWarn] else []) ++
      (if hasStdHeadingB text then [] else [missingHeadWarn])

/-- The clean ASCII lint input of the long line property: a text containing
the word experience and one line of 161 characters. -/
def c7exampleText : List Char := "experience\n".toList ++ List.replicate 161 'a'

inductive DraftOutcome where
  | haltWarn : List Char → DraftOutcome
  | haltError : List Char → DraftOutcome
  | haltInfo : List Char → DraftOutcome
  | callModel : List Char → DraftOutcome

def isHaltWarn : DraftOutcome → Bool
  | DraftOutcome.haltWarn _ => true
  | _ => false

def isCallModel : DraftOutcome → Bool
  | DraftOutcome.callModel _ => true
  | _ => false

/-- src/app.py lines 143-149: the user payload sent to the model. -/
def user_payload (resume_text jd_text : List Char) : List Char :=
  strip ("\n[RESUME]\n".toList ++ resume_text ++
    "\n\n[JOB_DESCRIPTION]\n".toList ++ jd_text ++ "\n".toList)

/-- src/app.py lines 87-153: the guarded main flow of a tailoring request,
from the assembled resume text and the raw job description up to the model
invocation. Each halting outcome models an st message followed by st.stop
before the generate call of line 152. -/
def draft_flow (resume_text jd_text : List Char) (genai_ok : Bool)
    (api_key : List Char) : DraftOutcome :=
  if resume_text = [] then
    DraftOutcome.haltWarn ("Please upload a resume or paste your resume text.".toList)
  else if strip jd_text = [] then
    DraftOutcome.haltWarn ("Please paste the job description.".toList)
  else if genai_ok = false then
    DraftOutcome.haltError ("google-generativeai not installed.".toList)
  else if api_key = [] then
    DraftOutcome.haltInfo ("Add your GEMINI_API_KEY in the sidebar or Streamlit Secrets.".toList)
  else DraftOutcome.callModel (user_payload resume_text jd_text)

/-- Split on newline characters, keeping empty segments. -/
def splitOnNL : List Char → List (List Char)
  | [] => [[]]
  | '\n' :: rest => [] :: splitOnNL rest
  | c :: rest =>
    match splitOnNL rest with
    | [] => [[c]]
    | l :: ls => (c :: l) :: ls

/-- Join lines with newline characters. -/
def joinNL : List (List Char) → List Char
  | [] => []
  | [l] => l
  | l :: ls => l ++ '\n' :: joinNL ls

/-- Modelled from the spec: the Section Splitter of spec section 4.2 belongs
to repository variants that are not present under src/. Its boundary
predicate: a line shaped like a heading consists of one or more uppercase
letters and spaces occupying the whole line. -/
def isHeadingShaped (ln : List Char) : Bool :=
  !ln.isEmpty && ln.all fun c => (decide (65 ≤ c.toNat) && decide (c.toNat ≤ 90)) || c == ' '

/-- Modelled from the spec: the section capture of spec section 4.2 (code not
under src/). Locate the first line equal to the canonical name that is
followed by a newline, then take the following lines up to, but not including,
the next heading shaped line or the end of the text. -/
def sectionBody (name : List Char) : List (List Char) → Option (List (List Char))
  | [] => none
  | [_] => none
  | ln :: rest =>
    if ln = name then some (rest.takeWhile fun l => !isHeadingShaped l)
    else sectionBody name rest

def CANONICAL_SECTIONS : List (List Char) :=
  ["SUMMARY".toList, "SKILLS".toList, "EXPERIENCE".toList,
    "EDUCATION".toList, "CERTIFICATIONS".toList, "PROJECTS".toList]

/-- Modelled from the spec: the Section Splitter of spec section 4.2 (code not
under src/): canonical names are tried in canonical order and a section is
kept only when its trimmed body is non-empty. -/
def split_sections (resume : List Char) : List (List Char × List Char) :=
  CANONICAL_SECTIONS.filterMap fun name =>
    match sectionBody name (splitOnNL resume) with
    | none => none
    | some bodyLines =>
      let b := strip (joinNL bodyLines)
      if b = [] then none else some (name, b)

theorem dropAppend (l₁ l₂ : List Char) : (l₁ ++ l₂).drop l₁.length = l₂ := by
  induction l₁ with
  | nil => rfl
  | cons c cs ih => simp [ih]

theorem dropAppendPlus (l₁ l₂ : List Char) (n : Nat) :
    (l₁ ++ l₂).drop (l₁.length + n) = l₂.drop n := by
  induction l₁ with
  | nil => simp
  | cons c cs ih => simp [Nat.succ_add, ih]

theorem lcStr_length (a p : List Char) (h : lcStr a = lcStr p) :
    a.length = p.length := by
  have := congrArg List.length h
  simpa [lcStr] using this

theorem isPrefixCI_append_of_lc (a p t : List Char) (h : lcStr a = lcStr p) :
    isPrefixCI p (a ++ t) = true := by
  induction p generalizing a with
  | nil => simp [isPrefixCI]
  | cons q qs ih =>
    cases a with
    | nil => simp [lcStr] at h
    | cons c cs =>
      simp only [lcStr, List.map_cons, List.cons.injEq] at h
      simp only [List.cons_append, isPrefixCI, Bool.and_eq_true, beq_iff_eq]
      exact ⟨h.1.symm, ih cs h.2⟩

theorem isPrefixCI_length_le (p t : List Char) (h : isPrefixCI p t = true) :
    p.length ≤ t.length := by
  induction p generalizing t with
  | nil => simp
  | cons q qs ih =>
    cases t with
    | nil => simp [isPrefixCI] at h
    | cons c cs =>
      simp only [isPrefixCI, Bool.and_eq_true] at h
      have := ih cs h.2
      simp [Nat.succ_le_succ this]

theorem splitFirstCI_decomp (pat pre rest : List Char)
    (hpre : ∀ k, k < pre.length → isPrefixCI pat ((pre ++ rest).drop k) = false)
    (hhit : isPrefixCI pat rest = true) :
    splitFirstCI pat (pre ++ rest) = some (pre, rest.drop pat.length) := by
  induction pre with
  | nil =>
    cases rest with
    | nil => simp [splitFirstCI, hhit]
    | cons c cs => simp [splitFirstCI, hhit]
  | cons c pre' ih =>
    have h0 : isPrefixCI pat (c :: (pre' ++ rest)) = false := by
      have h := hpre 0 (by simp)
      simpa using h
    have hpre' : ∀ k, k < pre'.length → isPrefixCI pat ((pre' ++ rest).drop k) = false := by
      intro k hk
      have h := hpre (k + 1) (by simp; omega)
      simpa using h
    rw [List.cons_append, splitFirstCI, h0]
    simp only [Bool.false_eq_true, if_false]
    rw [ih hpre']

theorem splitFirstCI_some (pat : List Char) :
    ∀ s b a : List Char, splitFirstCI pat s = some (b, a) →
      ∃ t, s = b ++ t ∧ isPrefixCI pat t = true ∧ a = t.drop pat.length := by
  intro s
  induction s with
  | nil =>
    intro b a h
    by_cases hp : isPrefixCI pat [] = true
    · simp [splitFirstCI, hp] at h
      exact ⟨[], by simp [h.1], hp, by simp [h.2]⟩
    · simp [splitFirstCI, hp] at h
  | cons c cs ih =>
    intro b a h
    by_cases hp : isPrefixCI pat (c :: cs) = true
    · simp [splitFirstCI, hp] at h
      exact ⟨c :: cs, by simp [h.1], hp, by simp [h.2]⟩
    · simp only [splitFirstCI, hp, Bool.false_eq_true, if_false] at h
      cases e : splitFirstCI pat cs with
      | none => rw [e] at h; cases h
      | some p =>
        obtain ⟨b', a'⟩ := p
        rw [e] at h
        simp only [Option.some.injEq, Prod.mk.injEq] at h
        obtain ⟨t, ht, hpt, hat⟩ := ih b' a' e
        exact ⟨t, by rw [← h.1, ht]; simp, hpt, by rw [← h.2]; exact hat⟩

theorem tagMatchesB_of (op cl s : List Char) (i k : Nat)
    (hik : i + op.length ≤ k) (hk : k ≤ s.length)
    (ho : isPrefixCI op (s.drop i) = true) (hc : isPrefixCI cl (s.drop k) = true) :
    tagMatchesB op cl s = true := by
  unfold tagMatchesB
  rw [List.any_eq_true]
  refine ⟨i, List.mem_range.mpr (by omega), ?_⟩
  rw [Bool.and_eq_true]
  refine ⟨ho, ?_⟩
  rw [List.any_eq_true]
  refine ⟨k, List.mem_range.mpr (by omega), ?_⟩
  rw [Bool.and_eq_true]
  exact ⟨by simpa using hik, hc⟩

theorem searchTagged_some_matches (op cl s cap : List Char)
    (h : searchTagged op cl s = some cap) : tagMatchesB op cl s = true := by
  unfold searchTagged at h
  cases e1 : splitFirstCI op s with
  | none => rw [e1] at h; exact Option.noConfusion h
  | some p1 =>
    obtain ⟨b1, rest⟩ := p1
    simp only [e1] at h
    cases e2 : splitFirstCI cl rest with
    | none => simp only [e2] at h; exact Option.noConfusion h
    | some p2 =>
      obtain ⟨cap2, a2⟩ := p2
      obtain ⟨t1, hs1, hp1, ha1⟩ := splitFirstCI_some op s b1 rest e1
      obtain ⟨t2, hs2, hp2, ha2⟩ := splitFirstCI_some cl rest cap2 a2 e2
      have hlen1 : s.length = b1.length + t1.length := by rw [hs1]; simp
      have hle1 : op.length ≤ t1.length := isPrefixCI_length_le op t1 hp1
      have hlenr : rest.length = t1.length - op.length := by rw [ha1]; simp
      have hlen2 : rest.length = cap2.length + t2.length := by rw [hs2]; simp
      have hdrop1 : s.drop b1.length = t1 := by rw [hs1]; exact dropAppend b1 t1
      have hdropk : s.drop (b1.length + (op.length + cap2.length)) = t2 := by
        rw [hs1, dropAppendPlus b1 t1 (op.length + cap2.length)]
        have : t1.drop (op.length + cap2.length) = (t1.drop op.length).drop cap2.length := by
          rw [List.drop_drop, Nat.add_comm]
        rw [this, ← ha1, hs2]
        exact dropAppend cap2 t2
      apply tagMatchesB_of op cl s b1.length (b1.length + (op.length + cap2.length))
        (by omega) (by omega) (by rw [hdrop1]; exact hp1) (by rw [hdropk]; exact hp2)

theorem searchTagged_eq_none (op cl s : List Char)
    (h : tagMatchesB op cl s = false) : searchTagged op cl s = none := by
  cases hst : searchTagged op cl s with
  | none => rfl
  | some cap =>
    rw [searchTagged_some_matches op cl s cap hst] at h
    cases h

theorem searchTagged_decomp (opTag clTag pre op X cl tail : List Char)
    (hop : lcStr op = lcStr opTag) (hcl : lcStr cl = lcStr clTag)
    (h1 : ∀ k, k < pre.length →
      isPrefixCI opTag ((pre ++ (op ++ (X ++ (cl ++ tail)))).drop k) = false)
    (h2 : ∀ k, k < X.length →
      isPrefixCI clTag ((X ++ (cl ++ tail)).drop k) = false) :
    searchTagged opTag clTag (pre ++ (op ++ (X ++ (cl ++ tail)))) = some X := by
  have hlo : op.length = opTag.length := lcStr_length op opTag hop
  have hlc : cl.length = clTag.length := lcStr_length cl clTag hcl
  have e1 : splitFirstCI opTag (pre ++ (op ++ (X ++ (cl ++ tail))))
      = some (pre, (op ++ (X ++ (cl ++ tail))).drop opTag.length) :=
    splitFirstCI_decomp opTag pre (op ++ (X ++ (cl ++ tail))) h1
      (isPrefixCI_append_of_lc op opTag (X ++ (cl ++ tail)) hop)
  have hdrop1 : (op ++ (X ++ (cl ++ tail))).drop opTag.length = X ++ (cl ++ tail) := by
    rw [← hlo]; exact dropAppend op (X ++ (cl ++ tail))
  rw [hdrop1] at e1
  have e2 : splitFirstCI clTag (X ++ (cl ++ tail))
      = some (X, (cl ++ tail).drop clTag.length) :=
    splitFirstCI_decomp clTag X (cl ++ tail) h2
      (isPrefixCI_append_of_lc cl clTag tail hcl)
  unfold searchTagged
  simp only [e1, e2]

theorem digitChar_toNat_le (k : Nat) : (digitChar k).toNat ≤ 57 := by
  unfold digitChar
  split_ifs <;> decide

theorem natDigitsAux_cons (fuel : Nat) : ∀ n, n < fuel →
    ∃ k t, natDigitsAux fuel n = digitChar k :: t := by
  induction fuel with
  | zero => intro n h; omega
  | succ fuel ih =>
    intro n h
    by_cases h10 : n < 10
    · exact ⟨n, [], by simp [natDigitsAux, h10]⟩
    · have hlt : n / 10 < fuel := by
        have := Nat.div_lt_self (by omega : 0 < n) (by omega : 1 < 10)
        omega
      obtain ⟨k, t, ht⟩ := ih (n / 10) hlt
      refine ⟨k, t ++ [digitChar (n % 10)], ?_⟩
      simp [natDigitsAux, h10, ht]

theorem natDigits_cons (n : Nat) : ∃ k t, natDigits n = digitChar k :: t :=
  natDigitsAux_cons (n + 1) n (by omega)

theorem longLineWarn_headD (n : Nat) : ∃ k, (longLineWarn n).headD ' ' = digitChar k := by
  obtain ⟨k, t, ht⟩ := natDigits_cons n
  exact ⟨k, by simp [longLineWarn, ht]⟩

theorem longLineWarn_ne_nonAscii (n : Nat) : longLineWarn n ≠ nonAsciiWarn := by
  intro h
  obtain ⟨k, hk⟩ := longLineWarn_headD n
  rw [h] at hk
  have h1 : (nonAsciiWarn.headD ' ').toNat = 78 := by decide
  have h3 := congrArg Char.toNat hk
  rw [h1] at h3
  have h2 := digitChar_toNat_le k
  omega

theorem longLineWarn_ne_missing (n : Nat) : longLineWarn n ≠ missingHeadWarn := by
  intro h
  obtain ⟨k, hk⟩ := longLineWarn_headD n
  rw [h] at hk
  have h1 : (missingHeadWarn.headD ' ').toNat = 77 := by decide
  have h3 := congrArg Char.toNat hk
  rw [h1] at h3
  have h2 := digitChar_toNat_le k
  omega

/-- C1 (counterexample): the input below contains the well-formed pair
with captured content X a single space, yet the parser does not return trim X;
the empty trimmed capture triggers the whole-response fallback instead. -/
theorem C1_counterexample :
    ("<RESUME> </RESUME>after".toList
      = "<RESUME>".toList ++ (" ".toList ++ ("</RESUME>".toList ++ "after".toList)))
    ∧ (parse_response ("<RESUME> </RESUME>after".toList)).resume_block
        ≠ strip (" ".toList) := by
  decide

/-- C1 (amended): for any input of shape pre, opening tag case variant, X,
closing tag case variant, post, where the opening tag is the first
case-insensitive RESUME opening tag occurrence, the closing tag is the first
subsequent closing tag occurrence, and X trims to a non-empty string, the
parser returns resumeBlock equal to X trimmed, regardless of the text before
or after the tagged block. -/
theorem C1_first_pair_extraction (pre op X cl post : List Char)
    (hop : lcStr op = lcStr resumeOpenTag)
    (hcl : lcStr cl = lcStr resumeCloseTag)
    (h1 : ∀ k, k < pre.length →
      isPrefixCI resumeOpenTag ((pre ++ (op ++ (X ++ (cl ++ post)))).drop k) = false)
    (h2 : ∀ k, k < X.length →
      isPrefixCI resumeCloseTag ((X ++ (cl ++ post)).drop k) = false)
    (h3 : strip X ≠ []) :
    (parse_response (pre ++ (op ++ (X ++ (cl ++ post))))).resume_block = strip X := by
  have hs := searchTagged_decomp resumeOpenTag resumeCloseTag pre op X cl post hop hcl h1 h2
  show resume_block_of (pre ++ (op ++ (X ++ (cl ++ post)))) = strip X
  unfold resume_block_of
  rw [hs]
  simp [h3]

theorem C1_witness :
    (parse_response ("Intro ".toList ++ ("<resume>".toList ++ ("Hello World".toList
      ++ ("</RESUME>".toList ++ (" bye".toList)))))).resume_block
      = strip ("Hello World".toList) :=
  C1_first_pair_extraction ("Intro ".toList) ("<resume>".toList) ("Hello World".toList)
    ("</RESUME>".toList) (" bye".toList) (by decide) (by decide) (by decide) (by decide)
    (by decide)

/-- C2: when the RESUME tag pattern matches nowhere in the input, the parser
returns the whole input, trimmed, as the resume block. -/
theorem C2_fallback (content : List Char)
    (h : tagMatchesB resumeOpenTag resumeCloseTag content = false) :
    (parse_response content).resume_block = strip content := by
  have hn := searchTagged_eq_none resumeOpenTag resumeCloseTag content h
  show resume_block_of content = strip content
  unfold resume_block_of
  rw [hn]

theorem C2_witness :
    (parse_response ("Plain answer with no tags.".toList)).resume_block
      = strip ("Plain answer with no tags.".toList) :=
  C2_fallback ("Plain answer with no tags.".toList) (by decide)

/-- C3: on the property five input, the Section Splitter produces the SKILLS
body Python, SQL and the EXPERIENCE body Did things; the SKILLS capture stops
at the next all-caps line. Section Splitter modelled from the spec, see the
definition of split_sections. -/
theorem C3_section_split :
    split_sections ("SKILLS\nPython, SQL\nEXPERIENCE\nDid things\n".toList)
      = [("SKILLS".toList, "Python, SQL".toList),
        ("EXPERIENCE".toList, "Did things".toList)] := by
  decide

/-- C4 (counterexample): a single space is a non-empty raw response whose
resume block comes out empty, refuting the stated invariant. -/
theorem C4_counterexample :
    (" ".toList ≠ ([] : List Char))
    ∧ (parse_response (" ".toList)).resume_block = [] := by
  decide

/-- C4 (amended): every raw response that is non-empty after trimming yields a
non-empty resume block. -/
theorem C4_nonempty (content : List Char) (h : strip content ≠ []) :
    (parse_response content).resume_block ≠ [] := by
  show resume_block_of content ≠ []
  unfold resume_block_of
  cases searchTagged resumeOpenTag resumeCloseTag content with
  | none => exact h
  | some g =>
    show (if strip g = [] then strip content else strip g) ≠ []
    by_cases hg : strip g = []
    · rw [if_pos hg]; exact h
    · rw [if_neg hg]; exact hg

theorem C4_witness : (parse_response ("x".toList)).resume_block ≠ [] :=
  C4_nonempty ("x".toList) (by decide)

/-- C5: with one opening tag and two closing tags, the parser captures exactly
the text from the first opening tag to the first subsequent closing tag, for
the RESUME pair as well as the MATCH_REPORT pair. -/
theorem C5_first_close_capture (pre op X cl1 mid cl2 post opTag clTag : List Char)
    (_htag : (opTag = resumeOpenTag ∧ clTag = resumeCloseTag)
      ∨ (opTag = reportOpenTag ∧ clTag = reportCloseTag))
    (hop : lcStr op = lcStr opTag)
    (hcl1 : lcStr cl1 = lcStr clTag)
    (_hcl2 : lcStr cl2 = lcStr clTag)
    (h1 : ∀ k, k < pre.length →
      isPrefixCI opTag
        ((pre ++ (op ++ (X ++ (cl1 ++ (mid ++ (cl2 ++ post)))))).drop k) = false)
    (h2 : ∀ k, k < X.length →
      isPrefixCI clTag ((X ++ (cl1 ++ (mid ++ (cl2 ++ post)))).drop k) = false) :
    searchTagged opTag clTag
      (pre ++ (op ++ (X ++ (cl1 ++ (mid ++ (cl2 ++ post)))))) = some X :=
  searchTagged_decomp opTag clTag pre op X cl1 (mid ++ (cl2 ++ post)) hop hcl1 h1 h2

theorem C5_witness :
    searchTagged resumeOpenTag resumeCloseTag ("".toList ++ ("<Resume>".toList
      ++ ("body A".toList ++ ("</resume>".toList ++ (" mid ".toList
        ++ ("</RESUME>".toList ++ " tail".toList)))))) = some ("body A".toList) :=
  C5_first_close_capture ("".toList) ("<Resume>".toList) ("body A".toList)
    ("</resume>".toList) (" mid ".toList) ("</RESUME>".toList) (" tail".toList)
    resumeOpenTag resumeCloseTag (Or.inl ⟨rfl, rfl⟩) (by decide) (by decide)
    (by decide) (by decide) (by decide)

/-- C6: when the MATCH_REPORT tag pattern matches nowhere, the parser returns
an empty report block (no error is possible, the parser is a total function)
and the renderer displays the em dash placeholder. -/
theorem C6_missing_report (content : List Char)
    (h : tagMatchesB reportOpenTag reportCloseTag content = false) :
    (parse_response content).report_block = []
    ∧ render_report ((parse_response content).report_block) = emDash := by
  have hn := searchTagged_eq_none reportOpenTag reportCloseTag content h
  have hz : (parse_response content).report_block = [] := by
    show report_block_of content = []
    unfold report_block_of
    rw [hn]
  exact ⟨hz, by rw [hz]; decide⟩

theorem C6_witness :
    (parse_response ("Resume text only.".toList)).report_block = []
    ∧ render_report ((parse_response ("Resume text only.".toList)).report_block) = emDash :=
  C6_missing_report ("Resume text only.".toList) (by decide)

/-- C7: the long line warning, count included, is emitted iff some line is
longer than 160 characters; and the clean ASCII example with one line of 161
characters triggers exactly the long line warning and no other. -/
theorem C7_long_line (text : List Char) :
    (longLineWarn (countLongLines text) ∈ ats_lint text ↔ 0 < countLongLines text)
    ∧ ats_lint c7exampleText = [longLineWarn 1] := by
  constructor
  · constructor
    · intro hmem
      by_contra hc
      have hz : countLongLines text = 0 := by omega
      rw [hz] at hmem
      unfold ats_lint at hmem
      rw [hz] at hmem
      simp only [lt_self_iff_false, if_false, List.nil_append] at hmem
      rw [List.mem_append] at hmem
      rcases hmem with hmem | hmem
      · cases hna : hasNonAscii text <;> simp [hna] at hmem
        exact absurd hmem (by decide)
      · cases hsh : hasStdHeadingB text <;> simp [hsh] at hmem
        exact absurd hmem (by decide)
    · intro hpos
      unfold ats_lint
      rw [if_pos hpos]
      simp
  · decide

theorem C7_witness :
    longLineWarn (countLongLines c7exampleText) ∈ ats_lint c7exampleText :=
  ((C7_long_line c7exampleText).1).mpr (by decide)

/-- C8 (counterexample): the input consisting of one control character 0x01
has a character outside the printable seven bit range 0x20 to 0x7E, yet no
non-ASCII warning is emitted, refuting the stated iff. -/
theorem C8_counterexample :
    (∃ c ∈ ("\x01".toList), c.toNat < 32 ∨ 126 < c.toNat)
    ∧ nonAsciiWarn ∉ ats_lint ("\x01".toList) := by
  decide

/-- C8 (amended): the non-ASCII warning is emitted iff some character of the
input has a code point above 127, outside the seven bit range; in particular
an input containing the word café triggers the warning. -/
theorem C8_non_ascii (text : List Char) :
    (nonAsciiWarn ∈ ats_lint text ↔ ∃ c ∈ text, 127 < c.toNat)
    ∧ nonAsciiWarn ∈ ats_lint ("café".toList) := by
  constructor
  · constructor
    · intro hmem
      cases hna : hasNonAscii text with
      | true =>
        obtain ⟨c, h1, h2⟩ := List.any_eq_true.mp hna
        exact ⟨c, h1, by simpa using h2⟩
      | false =>
        exfalso
        unfold ats_lint at hmem
        rw [hna] at hmem
        simp only [Bool.false_eq_true, if_false, List.nil_append] at hmem
        rw [List.mem_append] at hmem
        rcases hmem with hmem | hmem
        · by_cases hcl : 0 < countLongLines text <;> simp [hcl] at hmem
          exact longLineWarn_ne_nonAscii (countLongLines text) hmem.symm
        · cases hsh : hasStdHeadingB text <;> simp [hsh] at hmem
          exact absurd hmem (by decide)
    · rintro ⟨c, hcmem, hlt⟩
      have ht : hasNonAscii text = true := by
        unfold hasNonAscii
        rw [List.any_eq_true]
        exact ⟨c, hcmem, by simpa using hlt⟩
      unfold ats_lint
      rw [ht]
      simp
  · decide

theorem C8_witness : nonAsciiWarn ∈ ats_lint ("café has skills".toList) :=
  ((C8_non_ascii ("café has skills".toList)).1).mpr (by decide)

/-- C9: when the assembled resume text is empty or the job description is
empty at the start of a tailoring request, the flow emits a user-visible
warning and halts; in particular the model call outcome is never reached. -/
theorem C9_input_guard (resume_text jd_text : List Char) (genai_ok : Bool)
    (api_key : List Char) (h : resume_text = [] ∨ jd_text = []) :
    isHaltWarn (draft_flow resume_text jd_text genai_ok api_key) = true
    ∧ isCallModel (draft_flow resume_text jd_text genai_ok api_key) = false := by
  rcases h with h | h
  · subst h
    simp [draft_flow, isHaltWarn, isCallModel]
  · subst h
    by_cases hr : resume_text = []
    · simp [draft_flow, hr, isHaltWarn, isCallModel]
    · have hstrip : strip ([] : List Char) = [] := rfl
      simp [draft_flow, hr, hstrip, isHaltWarn, isCallModel]

theorem C9_witness :
    isHaltWarn (draft_flow [] ("Job description".toList) true ("key".toList)) = true
    ∧ isCallModel (draft_flow [] ("Job description".toList) true ("key".toList)) = false :=
  C9_input_guard [] ("Job description".toList) true ("key".toList) (Or.inl rfl)

/-- C10: when the RESUME pattern matches but the capture trims to the empty
string, the parser still falls back to the whole raw response trimmed; the
fallback is triggered by an empty resume block, not only by a missing match. -/
theorem C10_empty_capture_fallback (content g : List Char)
    (h1 : searchTagged resumeOpenTag resumeCloseTag content = some g)
    (h2 : strip g = []) :
    (parse_response content).resume_block = strip content := by
  show resume_block_of content = strip content
  unfold resume_block_of
  rw [h1]
  simp [h2]

theorem C10_witness :
    (parse_response ("<RESUME>   </RESUME>trailing text".toList)).resume_block
      = strip ("<RESUME>   </RESUME>trailing text".toList) :=
  C10_empty_capture_fallback ("<RESUME>   </RESUME>trailing text".toList)
    ("   ".toList) (by decide) (by decide)
